import Mathlib

/-!
Shallow embedding of `src/tools/mkwallpaper/raw_convert.py`, a PNG/JPEG →
XRGB8888 raw converter, together with proofs about its behaviour.

The Python program decodes an image with Pillow, optionally resizes it,
and writes each pixel as a 4-byte little-endian word `0x00RRGGBB` in
row-major order.  Pillow itself (decoding and LANCZOS resampling) is an
external library, so it is modelled by abstract function parameters
`decode : String → Image` and `resample : Image → Int → Int → Image`;
everything the script itself does is embedded concretely below.
-/

namespace RawConvert

/-- A decoded raster image as produced by `Image.open(...).convert("RGB")`
(line 26): a width, a height, and a pixel grid giving the `(R, G, B)`
channel triple at coordinate `(x, y)`. -/
structure Image where
  width : Nat
  height : Nat
  pixels : Nat → Nat → Nat × Nat × Nat

/-- Well-formedness of an RGB image: every in-range pixel has all three
channels in `[0, 255]`, as Pillow guarantees for mode "RGB". -/
def Image.valid (img : Image) : Prop :=
  ∀ x y, x < img.width → y < img.height →
    (img.pixels x y).1 ≤ 255 ∧ (img.pixels x y).2.1 ≤ 255 ∧ (img.pixels x y).2.2 ≤ 255

/-- Python truthiness of the optional `width` / `height` arguments as
tested on line 28 (`if width and height:`): `None` is falsy and an
integer is truthy iff it is nonzero. -/
def truthy : Option Int → Bool
  | none => false
  | some n => n != 0

/-- Lines 28–29: `if width and height: img = img.resize((width, height),
Image.LANCZOS)`.  `resample` stands for Pillow's `resize` with the
LANCZOS filter. -/
def convertImage (resample : Image → Int → Int → Image)
    (img : Image) (width height : Option Int) : Image :=
  if truthy width && truthy height then
    resample img (width.getD 0) (height.getD 0)
  else img

/-- Line 39: the packed 32-bit XRGB8888 value `(r << 16) | (g << 8) | b`. -/
def packPixel (r g b : Nat) : Nat :=
  (r <<< 16) ||| (g <<< 8) ||| b

/-- `struct.pack("<I", v)` (line 39): the four bytes of `v` in
little-endian order, least significant byte first.  (For the values
produced here `v < 2^24 < 2^32`, so `struct.pack` never raises.) -/
def packLE32 (v : Nat) : List Nat :=
  [v % 256, v / 256 % 256, v / 65536 % 256, v / 16777216 % 256]

/-- The bytes written for row `y`: the inner loop of lines 36–39 runs
`x` over `range(w)` left-to-right. -/
def rowBytes (img : Image) (y : Nat) : List Nat :=
  (List.range img.width).flatMap fun x =>
    packLE32 (packPixel (img.pixels x y).1 (img.pixels x y).2.1 (img.pixels x y).2.2)

/-- The full output buffer: the outer loop of line 35 runs `y` over
`range(h)` top-to-bottom, concatenating the rows. -/
def convertBytes (img : Image) : List Nat :=
  (List.range img.height).flatMap (rowBytes img)

/-- Line 41: the success message printed to standard output. -/
def summaryLine (w h : Nat) (outpath : String) : String :=
  "변환 완료: " ++ toString w ++ "x" ++ toString h ++ " → " ++ outpath ++
    " (" ++ toString (w * h * 4) ++ " bytes)"

/-- `convert(inpath, outpath, width, height)` (lines 25–41): decode the
input, optionally resize, write the packed pixels.  Returns the pair of
(bytes written to `outpath`, line printed to standard output). -/
def convert (decode : String → Image) (resample : Image → Int → Int → Image)
    (inpath outpath : String) (width height : Option Int) : List Nat × String :=
  let img := convertImage resample (decode inpath) width height
  (convertBytes img, summaryLine img.width img.height outpath)

/-- Observable result of one process run: exit status, lines printed to
standard output, lines printed to standard error, and the bytes written
to the output file (`none` when no file is created or modified). -/
structure RunResult where
  exitCode : Nat
  stdoutLines : List String
  stderrLines : List String
  written : Option (List Nat)
  deriving DecidableEq

/-- The usage message of line 46 (printed via a bare `print`, i.e. to
standard output). -/
def usageLine (prog : String) : String :=
  "사용법: " ++ prog ++ " input.png output.raw [width height]"

/-- The message of line 21, printed to standard error when Pillow is
missing. -/
def pillowError : String :=
  "ERROR: Pillow 필요 — pip install Pillow"

/-- ASCII whitespace stripped by Python `int()` before parsing. -/
def pySpace (c : Char) : Bool :=
  c == ' ' || c == '\t' || c == '\n' || c == '\r' || c == '\x0b' || c == '\x0c'

/-- Digit run of a Python decimal integer literal after the first digit:
further digits, with single underscores allowed only between digits.
Accumulates the value in `acc`. -/
def parseDigitsCore (acc : Nat) : List Char → Option Nat
  | [] => some acc
  | '_' :: c :: cs =>
    if c.isDigit then parseDigitsCore (acc * 10 + (c.toNat - 48)) cs else none
  | c :: cs =>
    if c.isDigit then parseDigitsCore (acc * 10 + (c.toNat - 48)) cs else none

/-- Digit run of a Python decimal integer literal: must start with a
digit (no leading underscore). -/
def parseDigits : List Char → Option Nat
  | [] => none
  | c :: cs => if c.isDigit then parseDigitsCore (c.toNat - 48) cs else none

/-- Python `int(s)` in base 10, as called on lines 49–50: strip
surrounding whitespace, allow one optional sign, then a digit run with
underscores only between digits.  `none` models the `ValueError` raised
on any other input. -/
def pyInt (s : String) : Option Int :=
  let cs := ((s.toList.dropWhile pySpace).reverse.dropWhile pySpace).reverse
  match cs with
  | '+' :: rest => (parseDigits rest).map Int.ofNat
  | '-' :: rest => (parseDigits rest).map fun n => -(n : Int)
  | rest => (parseDigits rest).map Int.ofNat

/-- The diagnostic of the uncaught `ValueError` raised by `int()` on
line 49 or 50 (printed by the interpreter to standard error). -/
def valueErrorLine : String :=
  "ValueError: invalid literal for int() with base 10"

/-- The `__main__` block, lines 44–52.  With fewer than 3 `argv` entries
(fewer than 2 positional arguments) it prints the usage line to standard
output and exits 1.  With more than 4 entries it parses `argv[3]` and
`argv[4]` with `int()`; a parse failure is an uncaught `ValueError`,
which terminates the process with status 1 and a traceback on standard
error before `convert` is called.  Otherwise it calls `convert`. -/
def cliMain (decode : String → Image) (resample : Image → Int → Int → Image)
    (argv : List String) : RunResult :=
  if argv.length < 3 then
    ⟨1, [usageLine (argv.getD 0 "")], [], none⟩
  else if argv.length > 4 then
    match pyInt (argv.getD 3 ""), pyInt (argv.getD 4 "") with
    | some w, some h =>
      let r := convert decode resample (argv.getD 1 "") (argv.getD 2 "") (some w) (some h)
      ⟨0, [r.2], [], some r.1⟩
    | _, _ =>
      ⟨1, [], [valueErrorLine], none⟩
  else
    let r := convert decode resample (argv.getD 1 "") (argv.getD 2 "") none none
    ⟨0, [r.2], [], some r.1⟩

/-- The whole process, lines 18–52: the import guard of lines 18–22 runs
before anything else; when Pillow is unavailable the process prints the
error to standard error and exits 1 without touching `argv` or any
file.  Otherwise execution reaches the `__main__` block. -/
def program (pillowAvailable : Bool) (decode : String → Image)
    (resample : Image → Int → Int → Image) (argv : List String) : RunResult :=
  if pillowAvailable then cliMain decode resample argv
  else ⟨1, [], [pillowError], none⟩

/-- Reading the produced file back, following the spec's words: word `k`
of the buffer is bytes `[4*k, 4*k+4)` interpreted as a little-endian
32-bit unsigned integer.  (The consumer is outside the source; this
definition follows the spec's decoding description for the round-trip
property.) -/
def readWordLE (bytes : List Nat) (k : Nat) : Nat :=
  bytes.getD (4 * k) 0 + 256 * bytes.getD (4 * k + 1) 0 +
    65536 * bytes.getD (4 * k + 2) 0 + 16777216 * bytes.getD (4 * k + 3) 0

/-! ### List infrastructure -/

lemma flatMap_range_length {α : Type} (f : Nat → List α) (L : Nat)
    (hL : ∀ i, (f i).length = L) (n : Nat) :
    ((List.range n).flatMap f).length = n * L := by
  induction n with
  | zero => simp
  | succ n ih =>
    rw [List.range_succ]
    simp [ih, hL, Nat.succ_mul]

lemma flatMap_range'_drop {α : Type} (f : Nat → List α) (L : Nat)
    (hL : ∀ i, (f i).length = L) :
    ∀ (n s k : Nat), k ≤ n →
      ((List.range' s n).flatMap f).drop (L * k) =
        (List.range' (s + k) (n - k)).flatMap f := by
  intro n
  induction n with
  | zero =>
    intro s k hk
    have : k = 0 := Nat.le_zero.mp hk
    subst this
    simp
  | succ n ih =>
    intro s k hk
    cases k with
    | zero => simp
    | succ j =>
      rw [List.range'_succ, List.flatMap_cons]
      have hidx : L * (j + 1) = (f s).length + L * j := by
        rw [hL s]; ring
      rw [hidx, List.drop_append, ih (s + 1) j (Nat.le_of_succ_le_succ hk)]
      have h1 : s + 1 + j = s + (j + 1) := by omega
      have h2 : n - j = n + 1 - (j + 1) := by omega
      rw [h1, h2]

lemma getD_drop {α : Type} (d : α) :
    ∀ (l : List α) (n j : Nat), (l.drop n).getD j d = l.getD (n + j) d := by
  intro l
  induction l with
  | nil => intro n j; simp
  | cons a l ih =>
    intro n j
    cases n with
    | zero => simp
    | succ m =>
      rw [List.drop_succ_cons]
      have : m + 1 + j = (m + j) + 1 := by omega
      rw [this, ih m j]
      rfl

lemma getD_take {α : Type} (d : α) :
    ∀ (l : List α) (n j : Nat), j < n → (l.take n).getD j d = l.getD j d := by
  intro l
  induction l with
  | nil => intro n j _; simp
  | cons a l ih =>
    intro n j hj
    cases n with
    | zero => omega
    | succ m =>
      rw [List.take_succ_cons]
      cases j with
      | zero => rfl
      | succ i =>
        have : (a :: l.take m).getD (i + 1) d = (l.take m).getD i d := rfl
        rw [this, ih m i (by omega)]
        rfl

/-! ### Arithmetic of the packed pixel -/

lemma packPixel_eq (r g b : Nat) (_hr : r ≤ 255) (hg : g ≤ 255) (hb : b ≤ 255) :
    packPixel r g b = 65536 * r + 256 * g + b := by
  unfold packPixel
  rw [Nat.shiftLeft_eq, Nat.shiftLeft_eq, Nat.or_assoc]
  have e8 : (2 : Nat) ^ 8 = 256 := by norm_num
  have e16 : (2 : Nat) ^ 16 = 65536 := by norm_num
  have h1 : g * 2 ^ 8 ||| b = 256 * g + b := by
    rw [Nat.mul_comm, e8]
    have : b < 2 ^ 8 := by omega
    rw [e8] at this
    have := Nat.mul_add_lt_is_or (i := 8) (b := b) (by rw [e8]; omega) g
    rw [e8] at this
    exact this.symm
  rw [h1]
  have h2 : r * 2 ^ 16 ||| (256 * g + b) = 65536 * r + (256 * g + b) := by
    rw [Nat.mul_comm, e16]
    have := Nat.mul_add_lt_is_or (i := 16) (b := 256 * g + b) (by rw [e16]; omega) r
    rw [e16] at this
    exact this.symm
  rw [h2]
  ring

lemma packPixel_lt (r g b : Nat) (hr : r ≤ 255) (hg : g ≤ 255) (hb : b ≤ 255) :
    packPixel r g b < 16777216 := by
  rw [packPixel_eq r g b hr hg hb]; omega

lemma packLE32_packPixel (r g b : Nat) (hr : r ≤ 255) (hg : g ≤ 255) (hb : b ≤ 255) :
    packLE32 (packPixel r g b) = [b, g, r, 0] := by
  rw [packLE32, packPixel_eq r g b hr hg hb]
  have h0 : (65536 * r + 256 * g + b) % 256 = b := by omega
  have h1 : (65536 * r + 256 * g + b) / 256 % 256 = g := by omega
  have h2 : (65536 * r + 256 * g + b) / 65536 % 256 = r := by omega
  have h3 : (65536 * r + 256 * g + b) / 16777216 % 256 = 0 := by omega
  rw [h0, h1, h2, h3]

lemma packLE32_length (v : Nat) : (packLE32 v).length = 4 := rfl

/-! ### Shape of the output buffer -/

lemma rowBytes_length (img : Image) (y : Nat) :
    (rowBytes img y).length = img.width * 4 :=
  flatMap_range_length _ 4 (fun _ => packLE32_length _) _

lemma convertBytes_length (img : Image) :
    (convertBytes img).length = img.width * img.height * 4 := by
  rw [convertBytes, flatMap_range_length _ (img.width * 4) (rowBytes_length img) _]
  ring

/-- C1: every successful `convert` writes exactly `W * H * 4` bytes, where
`W × H` are the dimensions of the (possibly resized) image; in
particular a 1×1 image yields a 4-byte file. -/
theorem convert_output_length (decode : String → Image)
    (resample : Image → Int → Int → Image)
    (inpath outpath : String) (width height : Option Int) :
    (convert decode resample inpath outpath width height).1.length =
      (convertImage resample (decode inpath) width height).width *
        (convertImage resample (decode inpath) width height).height * 4 ∧
    (convert (fun _ => Image.mk 1 1 fun _ _ => (9, 9, 9)) resample
        inpath outpath none none).1.length = 4 := by
  constructor
  · exact convertBytes_length _
  · rfl

/-- Extracting the word of pixel `(x, y)`: bytes `[4*(y*W+x), 4*(y*W+x)+4)`
of the buffer are exactly the packed little-endian word of that pixel. -/
lemma convertBytes_extract (img : Image) (x y : Nat)
    (hx : x < img.width) (hy : y < img.height) :
    ((convertBytes img).drop (4 * (y * img.width + x))).take 4 =
      packLE32 (packPixel (img.pixels x y).1 (img.pixels x y).2.1 (img.pixels x y).2.2) := by
  have hidx : 4 * (y * img.width + x) = img.width * 4 * y + 4 * x := by ring
  rw [hidx, ← List.drop_drop, convertBytes, List.range_eq_range',
    flatMap_range'_drop (rowBytes img) (img.width * 4) (rowBytes_length img)
      img.height 0 y (Nat.le_of_lt hy)]
  simp only [Nat.zero_add]
  have hy' : img.height - y = (img.height - y - 1) + 1 := by omega
  rw [hy', List.range'_succ, List.flatMap_cons, List.drop_append_eq_append_drop]
  have hlen : 4 ≤ ((rowBytes img y).drop (4 * x)).length := by
    rw [List.length_drop, rowBytes_length]
    omega
  rw [List.take_append_of_le_length hlen, rowBytes, List.range_eq_range',
    flatMap_range'_drop _ 4 (fun _ => packLE32_length _) img.width 0 x (Nat.le_of_lt hx)]
  simp only [Nat.zero_add]
  have hx' : img.width - x = (img.width - x - 1) + 1 := by omega
  rw [hx', List.range'_succ, List.flatMap_cons]
  exact List.take_left' (packLE32_length _)

/-- Resampler used for concrete witnesses: honours the Pillow `resize`
contract (the result has exactly the requested dimensions). -/
def wResample : Image → Int → Int → Image :=
  fun img w h => ⟨w.toNat, h.toNat, fun _ _ => img.pixels 0 0⟩

/-- A concrete 2×2 image with distinct channel values per pixel. -/
def wImg2x2 : Image :=
  ⟨2, 2, fun x y => (40 + x, 50 + y, 60)⟩

/-- A concrete 2×2 image that is all red `(255, 0, 0)`. -/
def allRed2x2 : Image :=
  ⟨2, 2, fun _ _ => (255, 0, 0)⟩

/-- C2: each pixel `(R, G, B)` with channels in `[0, 255]` is written as
the 32-bit value `(R << 16) | (G << 8) | B` in little-endian byte order
`[B, G, R, 0]`, the top byte being `0x00`; and a 2×2 all-red image with
no resize arguments yields exactly 16 bytes of the form `00 00 FF 00`. -/
theorem packed_word_value (resample : Image → Int → Int → Image)
    (r g b : Nat) (hr : r ≤ 255) (hg : g ≤ 255) (hb : b ≤ 255) :
    packLE32 (packPixel r g b) = [b, g, r, 0] ∧
    (convert (fun _ => allRed2x2) resample "in.png" "out.raw" none none).1 =
      [0, 0, 255, 0, 0, 0, 255, 0, 0, 0, 255, 0, 0, 0, 255, 0] :=
  ⟨packLE32_packPixel r g b hr hg hb, by
    rw [show (convert (fun _ => allRed2x2) resample "in.png" "out.raw" none none).1 =
      convertBytes allRed2x2 from rfl]
    decide⟩

/-- Witness for C2 at the all-red pixel `(255, 0, 0)`. -/
theorem packed_word_value_witness :
    packLE32 (packPixel 255 0 0) = [0, 0, 255, 0] ∧
    (convert (fun _ => allRed2x2) wResample "in.png" "out.raw" none none).1 =
      [0, 0, 255, 0, 0, 0, 255, 0, 0, 0, 255, 0, 0, 0, 255, 0] :=
  packed_word_value wResample 255 0 0 (by decide) (by decide) (by decide)

/-- C3: pixels are written in row-major order — outer loop over rows,
inner loop over columns — so the word of pixel `(x, y)` occupies exactly
the byte range `[4*(y*W+x), 4*(y*W+x)+4)` of the output. -/
theorem convert_row_major (decode : String → Image)
    (resample : Image → Int → Int → Image)
    (inpath outpath : String) (width height : Option Int) (img : Image)
    (himg : convertImage resample (decode inpath) width height = img)
    (x y : Nat) (hx : x < img.width) (hy : y < img.height) :
    ((convert decode resample inpath outpath width height).1.drop
        (4 * (y * img.width + x))).take 4 =
      packLE32 (packPixel (img.pixels x y).1 (img.pixels x y).2.1
        (img.pixels x y).2.2) := by
  have hc : (convert decode resample inpath outpath width height).1 =
      convertBytes img := by
    simp [convert, himg]
  rw [hc]
  exact convertBytes_extract img x y hx hy

/-- Witness for C3 at pixel `(1, 1)` of a concrete 2×2 image. -/
theorem convert_row_major_witness :
    1 < wImg2x2.width ∧ 1 < wImg2x2.height ∧
    ((convert (fun _ => wImg2x2) wResample "in.png" "out.raw" none none).1.drop
        (4 * (1 * wImg2x2.width + 1))).take 4 =
      packLE32 (packPixel (wImg2x2.pixels 1 1).1 (wImg2x2.pixels 1 1).2.1
        (wImg2x2.pixels 1 1).2.2) :=
  ⟨by decide, by decide,
    convert_row_major (fun _ => wImg2x2) wResample "in.png" "out.raw" none none
      wImg2x2 rfl 1 1 (by decide) (by decide)⟩

/-- C9: a zero target width or height is falsy in the `if width and
height:` test of line 28, so the resize step is silently skipped and the
output dimensions equal the source image's. -/
theorem zero_dimension_skips_resize (resample : Image → Int → Int → Image)
    (img : Image) (width height : Option Int) :
    convertImage resample img (some 0) height = img ∧
    convertImage resample img width (some 0) = img ∧
    (convertImage resample img (some 0) height).width = img.width ∧
    (convertImage resample img width (some 0)).height = img.height := by
  have h1 : convertImage resample img (some 0) height = img := by
    simp [convertImage, truthy]
  have h2 : convertImage resample img width (some 0) = img := by
    cases width with
    | none => simp [convertImage, truthy]
    | some n => simp [convertImage, truthy]
  exact ⟨h1, h2, by rw [h1], by rw [h2]⟩

/-- C6: when Pillow is unavailable at startup, the import guard of
lines 18–22 prints an error to standard error and exits with status 1
before doing anything else: nothing on standard output, no file touched. -/
theorem missing_pillow_exits (decode : String → Image)
    (resample : Image → Int → Int → Image) (argv : List String) :
    program false decode resample argv = ⟨1, [], [pillowError], none⟩ := rfl

/-- C8: `convert` is deterministic — its output depends only on the
decoded image, the resampler, and the target dimensions, so two
invocations whose decode step yields the same image produce byte-identical
output (this covers repeated runs on the same input file, with or
without the resampling filter). -/
theorem convert_deterministic (decode decode' : String → Image)
    (resample : Image → Int → Int → Image)
    (inpath inpath' outpath : String) (width height : Option Int)
    (hdec : decode inpath = decode' inpath') :
    convert decode resample inpath outpath width height =
      convert decode' resample inpath' outpath width height := by
  simp [convert, hdec]

/-- Witness for C8 with the resampling filter applied (both target
dimensions present). -/
theorem convert_deterministic_witness :
    convert (fun _ => wImg2x2) wResample "a.png" "out.raw" (some 2) (some 3) =
      convert (fun _ => wImg2x2) wResample "a.png" "out.raw" (some 2) (some 3) :=
  convert_deterministic (fun _ => wImg2x2) (fun _ => wImg2x2) wResample
    "a.png" "a.png" "out.raw" (some 2) (some 3) rfl

/-- C5 is false as stated: with a single positional argument the process
does exit with status 1 and writes no file, but the usage message of
line 46 goes through a bare `print`, i.e. to standard output — standard
error stays empty. -/
theorem usage_to_stderr_cex :
    (program true (fun _ => wImg2x2) wResample
      ["raw_convert.py", "input.png"]).exitCode = 1 ∧
    (program true (fun _ => wImg2x2) wResample
      ["raw_convert.py", "input.png"]).written = none ∧
    (program true (fun _ => wImg2x2) wResample
      ["raw_convert.py", "input.png"]).stderrLines = [] ∧
    (program true (fun _ => wImg2x2) wResample
      ["raw_convert.py", "input.png"]).stdoutLines = [usageLine "raw_convert.py"] :=
  ⟨rfl, rfl, rfl, rfl⟩

/-- C5 amended: with fewer than 2 positional arguments the process exits
with status 1, prints the usage message to standard *output*, prints
nothing to standard error, and creates or modifies no file. -/
theorem usage_exit (decode : String → Image)
    (resample : Image → Int → Int → Image) (argv : List String)
    (h : argv.length < 3) :
    program true decode resample argv =
      ⟨1, [usageLine (argv.getD 0 "")], [], none⟩ := by
  simp [program, cliMain, h]

/-- Witness for the amended C5 at a 1-positional-argument invocation. -/
theorem usage_exit_witness :
    (["raw_convert.py", "input.png"] : List String).length < 3 ∧
    program true (fun _ => wImg2x2) wResample ["raw_convert.py", "input.png"] =
      ⟨1, [usageLine "raw_convert.py"], [], none⟩ :=
  ⟨by decide, usage_exit (fun _ => wImg2x2) wResample
    ["raw_convert.py", "input.png"] (by decide)⟩

lemma cliMain_run (decode : String → Image)
    (resample : Image → Int → Int → Image) (argv : List String) (wv hv : Int)
    (hn3 : ¬ argv.length < 3) (h4 : argv.length > 4)
    (hw : pyInt (argv.getD 3 "") = some wv)
    (hh : pyInt (argv.getD 4 "") = some hv) :
    cliMain decode resample argv =
      ⟨0, [(convert decode resample (argv.getD 1 "") (argv.getD 2 "")
          (some wv) (some hv)).2], [],
        some (convert decode resample (argv.getD 1 "") (argv.getD 2 "")
          (some wv) (some hv)).1⟩ := by
  unfold cliMain
  rw [if_neg hn3, if_pos h4, hw, hh]

lemma cliMain_noresize (decode : String → Image)
    (resample : Image → Int → Int → Image) (argv : List String)
    (hn3 : ¬ argv.length < 3) (hn4 : ¬ argv.length > 4) :
    cliMain decode resample argv =
      ⟨0, [(convert decode resample (argv.getD 1 "") (argv.getD 2 "")
          none none).2], [],
        some (convert decode resample (argv.getD 1 "") (argv.getD 2 "")
          none none).1⟩ := by
  unfold cliMain
  rw [if_neg hn3, if_neg hn4]

/-- C10: with all four positional arguments present but a width or
height that `int()` cannot parse, the uncaught `ValueError` terminates
the process with a nonzero status before `convert` runs: no file is
created or modified. -/
theorem invalid_int_argument (decode : String → Image)
    (resample : Image → Int → Int → Image) (argv : List String)
    (h4 : argv.length > 4)
    (hbad : pyInt (argv.getD 3 "") = none ∨ pyInt (argv.getD 4 "") = none) :
    program true decode resample argv = ⟨1, [], [valueErrorLine], none⟩ := by
  have h3 : ¬ argv.length < 3 := by omega
  show cliMain decode resample argv = _
  unfold cliMain
  rw [if_neg h3, if_pos h4]
  cases h34 : pyInt (argv.getD 3 "") with
  | none =>
    cases h44 : pyInt (argv.getD 4 "") with
    | none => rfl
    | some hv => rfl
  | some wv =>
    cases h44 : pyInt (argv.getD 4 "") with
    | none => rfl
    | some hv =>
      exfalso
      rcases hbad with hb | hb
      · rw [h34] at hb; exact Option.noConfusion hb
      · rw [h44] at hb; exact Option.noConfusion hb

/-- Witness for C10: a non-numeric width argument `"12x"`. -/
theorem invalid_int_argument_witness :
    (["raw_convert.py", "in.png", "out.raw", "12x", "34"] : List String).length > 4 ∧
    (pyInt "12x" = none ∨ pyInt "34" = none) ∧
    program true (fun _ => wImg2x2) wResample
        ["raw_convert.py", "in.png", "out.raw", "12x", "34"] =
      ⟨1, [], [valueErrorLine], none⟩ :=
  ⟨by decide, Or.inl (by decide),
    invalid_int_argument (fun _ => wImg2x2) wResample
      ["raw_convert.py", "in.png", "out.raw", "12x", "34"]
      (by decide) (Or.inl (by decide))⟩

/-- A concrete 3×2 source image. -/
def img3x2 : Image :=
  ⟨3, 2, fun x y => (x, y, 9)⟩

/-- C4 is false as stated: resizing is NOT triggered by argv length
alone.  Here all four positional slots are filled (5 argv entries,
width `"0"`, height `"5"`), yet the `if width and height:` truthiness
test fails on `0`, the resize step is skipped, and the written output
has the source dimensions 3×2 — although the (contract-honouring)
resampler would have produced a 0-width image had it been called. -/
theorem resize_iff_argv_cex :
    (["raw_convert.py", "in.png", "out.raw", "0", "5"] : List String).length > 4 ∧
    (program true (fun _ => img3x2) wResample
        ["raw_convert.py", "in.png", "out.raw", "0", "5"]).written =
      some (convertBytes img3x2) ∧
    (convertImage wResample img3x2 (some 0) (some 5)).width = 3 ∧
    (convertImage wResample img3x2 (some 0) (some 5)).height = 2 ∧
    (wResample img3x2 0 5).width = 0 :=
  ⟨by decide, by decide, rfl, rfl, rfl⟩

/-- C4 amended: the resize step runs iff strictly more than 4 argv
entries are present AND both width and height parse to nonzero
integers.  With 4 or fewer argv entries (e.g. input, output, and width
only) resize is skipped and the output is the packed source image; with
all four positional slots filled and both values nonzero, the output is
the packed resampled image, whose byte length matches the requested
dimensions (given that the resampler returns an image of exactly the
requested size, as Pillow's `resize` does); with all four slots filled
but a zero width or height, resize is again skipped. -/
theorem resize_condition (decode : String → Image)
    (resample : Image → Int → Int → Image)
    (hres : ∀ img (w h : Int), (resample img w h).width = w.toNat ∧
      (resample img w h).height = h.toNat)
    (argv : List String) (h3 : 3 ≤ argv.length) :
    (argv.length ≤ 4 →
      (cliMain decode resample argv).written =
        some (convertBytes (decode (argv.getD 1 "")))) ∧
    (∀ wv hv : Int, 4 < argv.length →
      pyInt (argv.getD 3 "") = some wv → pyInt (argv.getD 4 "") = some hv →
      wv ≠ 0 → hv ≠ 0 →
      (cliMain decode resample argv).written =
        some (convertBytes (resample (decode (argv.getD 1 "")) wv hv)) ∧
      ((cliMain decode resample argv).written.getD []).length =
        wv.toNat * hv.toNat * 4) ∧
    (∀ wv hv : Int, 4 < argv.length →
      pyInt (argv.getD 3 "") = some wv → pyInt (argv.getD 4 "") = some hv →
      (wv = 0 ∨ hv = 0) →
      (cliMain decode resample argv).written =
        some (convertBytes (decode (argv.getD 1 "")))) := by
  have hn3 : ¬ argv.length < 3 := by omega
  refine ⟨?_, ?_, ?_⟩
  · intro h4
    have hn4 : ¬ argv.length > 4 := by omega
    rw [cliMain_noresize decode resample argv hn3 hn4]
    simp [convert, convertImage, truthy]
  · intro wv hv h4 hw hh hw0 hh0
    have htr : (truthy (some wv) && truthy (some hv)) = true := by
      simp [truthy, hw0, hh0]
    have himg : convertImage resample (decode (argv.getD 1 "")) (some wv) (some hv) =
        resample (decode (argv.getD 1 "")) wv hv := by
      simp [convertImage, htr]
    have hwr : (cliMain decode resample argv).written =
        some (convertBytes (resample (decode (argv.getD 1 "")) wv hv)) := by
      rw [cliMain_run decode resample argv wv hv hn3 h4 hw hh]
      show some (convertBytes (convertImage resample (decode (argv.getD 1 ""))
        (some wv) (some hv))) = _
      rw [himg]
    refine ⟨hwr, ?_⟩
    rw [hwr]
    simp only [Option.getD_some]
    rw [convertBytes_length, (hres (decode (argv.getD 1 "")) wv hv).1,
      (hres (decode (argv.getD 1 "")) wv hv).2]
  · intro wv hv h4 hw hh hz
    have htr : (truthy (some wv) && truthy (some hv)) = false := by
      rcases hz with hz | hz <;> simp [truthy, hz]
    have himg : convertImage resample (decode (argv.getD 1 "")) (some wv) (some hv) =
        decode (argv.getD 1 "") := by
      simp [convertImage, htr]
    rw [cliMain_run decode resample argv wv hv hn3 h4 hw hh]
    show some (convertBytes (convertImage resample (decode (argv.getD 1 ""))
      (some wv) (some hv))) = _
    rw [himg]

/-- Witness for the amended C4: five argv entries with width 2 and
height 3 — the output is the packed resampled image of 2·3·4 = 24
bytes. -/
theorem resize_condition_witness :
    (cliMain (fun _ => img3x2) wResample
        ["raw_convert.py", "in.png", "out.raw", "2", "3"]).written =
      some (convertBytes (wResample img3x2 2 3)) ∧
    ((cliMain (fun _ => img3x2) wResample
        ["raw_convert.py", "in.png", "out.raw", "2", "3"]).written.getD []).length =
      2 * 3 * 4 :=
  (resize_condition (fun _ => img3x2) wResample (fun _ _ _ => ⟨rfl, rfl⟩)
      ["raw_convert.py", "in.png", "out.raw", "2", "3"] (by decide)).2.1 2 3
    (by decide) (by decide) (by decide) (by decide) (by decide)

/-- C7: round-trip — reading word `y*W+x` of the output back as a
little-endian 32-bit integer, its top byte is `0x00` and its low 24
bits are exactly the packed `RRGGBB` of pixel `(x, y)` of the (possibly
resized) image, so masking to the low 24 bits reproduces the RGB
channels exactly. -/
theorem round_trip (decode : String → Image)
    (resample : Image → Int → Int → Image)
    (inpath outpath : String) (width height : Option Int) (img : Image)
    (himg : convertImage resample (decode inpath) width height = img)
    (hval : img.valid) (x y : Nat) (hx : x < img.width) (hy : y < img.height) :
    readWordLE (convert decode resample inpath outpath width height).1
        (y * img.width + x) / 16777216 = 0 ∧
    readWordLE (convert decode resample inpath outpath width height).1
        (y * img.width + x) % 16777216 =
      packPixel (img.pixels x y).1 (img.pixels x y).2.1 (img.pixels x y).2.2 ∧
    readWordLE (convert decode resample inpath outpath width height).1
        (y * img.width + x) % 16777216 / 65536 = (img.pixels x y).1 ∧
    readWordLE (convert decode resample inpath outpath width height).1
        (y * img.width + x) % 16777216 / 256 % 256 = (img.pixels x y).2.1 ∧
    readWordLE (convert decode resample inpath outpath width height).1
        (y * img.width + x) % 16777216 % 256 = (img.pixels x y).2.2 := by
  obtain ⟨hr, hg, hb⟩ := hval x y hx hy
  have hc : (convert decode resample inpath outpath width height).1 =
      convertBytes img := by
    simp [convert, himg]
  have hword : ((convertBytes img).drop (4 * (y * img.width + x))).take 4 =
      [(img.pixels x y).2.2, (img.pixels x y).2.1, (img.pixels x y).1, 0] := by
    rw [convertBytes_extract img x y hx hy, packLE32_packPixel _ _ _ hr hg hb]
  have hbyte : ∀ j, j < 4 →
      (convertBytes img).getD (4 * (y * img.width + x) + j) 0 =
        [(img.pixels x y).2.2, (img.pixels x y).2.1, (img.pixels x y).1, 0].getD j 0 := by
    intro j hj
    rw [← getD_drop 0 (convertBytes img) (4 * (y * img.width + x)) j,
      ← getD_take 0 ((convertBytes img).drop (4 * (y * img.width + x))) 4 j hj,
      hword]
  have h0 := hbyte 0 (by omega)
  have h1 := hbyte 1 (by omega)
  have h2 := hbyte 2 (by omega)
  have h3 := hbyte 3 (by omega)
  rw [Nat.add_zero] at h0
  have hv : readWordLE (convertBytes img) (y * img.width + x) =
      (img.pixels x y).2.2 + 256 * (img.pixels x y).2.1 +
        65536 * (img.pixels x y).1 + 16777216 * 0 := by
    unfold readWordLE
    rw [h0, h1, h2, h3]
    rfl
  rw [hc, hv, packPixel_eq _ _ _ hr hg hb]
  exact ⟨by omega, by omega, by omega, by omega, by omega⟩

/-- Witness for C7 at pixel `(0, 1)` of a concrete 2×2 image, whose
channels are `(40, 51, 60)`. -/
theorem round_trip_witness :
    readWordLE (convert (fun _ => wImg2x2) wResample "in.png" "out.raw" none none).1
        (1 * wImg2x2.width + 0) / 16777216 = 0 ∧
    readWordLE (convert (fun _ => wImg2x2) wResample "in.png" "out.raw" none none).1
        (1 * wImg2x2.width + 0) % 16777216 = packPixel 40 51 60 ∧
    readWordLE (convert (fun _ => wImg2x2) wResample "in.png" "out.raw" none none).1
        (1 * wImg2x2.width + 0) % 16777216 / 65536 = 40 ∧
    readWordLE (convert (fun _ => wImg2x2) wResample "in.png" "out.raw" none none).1
        (1 * wImg2x2.width + 0) % 16777216 / 256 % 256 = 51 ∧
    readWordLE (convert (fun _ => wImg2x2) wResample "in.png" "out.raw" none none).1
        (1 * wImg2x2.width + 0) % 16777216 % 256 = 60 :=
  round_trip (fun _ => wImg2x2) wResample "in.png" "out.raw" none none wImg2x2 rfl
    (fun x y hx hy =>
      ⟨by show 40 + x ≤ 255; have hx2 : x < 2 := hx; omega,
        by show 50 + y ≤ 255; have hy2 : y < 2 := hy; omega,
        by show 60 ≤ 255; decide⟩)
    0 1 (by decide) (by decide)

end RawConvert
